import Mathlib

/-!
Verification of the kepler experiment-tracking core: the append-only entry
log, the entry codec, the log store read operations, the state projector,
and the writer-side experiment session, as described by the repository's
specification. The Python package sources are not part of the available
tree (only the README, CI workflows and example notebook are), so each
component below is modelled directly from the specification's wording.
-/

namespace Kepler

/-- Modelled from the spec: scalar value set for entry payloads — string,
number, bool, null (no nested objects). Numbers are modelled as rationals. -/
inductive Value where
  | vstr (s : String)
  | vnum (q : Rat)
  | vbool (b : Bool)
  | vnull
deriving DecidableEq, Repr

/-- Modelled from the spec: entry kind enumeration. -/
inductive Kind where
  | START
  | END
  | PROGRESS
  | METRIC
  | ARTIFACT
  | ERROR
  | INFO
  | WARNING
  | RESOURCE
  | CONFIG
  | TAG
deriving DecidableEq, Repr

/-- Modelled from the spec: an immutable log entry — monotonic `sequence`,
`timestamp`, `kind`, and a flat string-keyed `payload`. -/
structure LogEntry where
  sequence : Nat
  timestamp : Nat
  kind : Kind
  payload : List (String × Value)
deriving DecidableEq, Repr

/-- Modelled from the spec: derived experiment status. -/
inductive Status where
  | RUNNING
  | COMPLETED
  | ERROR
deriving DecidableEq, Repr

/-- Modelled from the spec: latest progress snapshot `{current, total, message}`. -/
structure Progress where
  current : Rat
  total : Rat
  message : String
deriving DecidableEq, Repr

/-- Modelled from the spec: one `(timestamp, level, text)` message record. -/
structure Message where
  timestamp : Nat
  level : String
  text : String
deriving DecidableEq, Repr

/-- Modelled from the spec: the derived `ExperimentState` — status, config
(last-write-wins), metrics (full ordered history per key), tags (insertion
ordered union), progress, resources (latest value), messages. -/
structure ExperimentState where
  status : Status
  startTime : Option Nat
  endTime : Option Nat
  config : List (String × Value)
  metrics : List (String × List (Nat × Value))
  tags : List String
  progress : Option Progress
  resources : List (String × Value)
  messages : List Message
deriving DecidableEq, Repr

/-- Association lookup on flat string-keyed lists (payloads, config maps). -/
def alookup {β : Type} (k : String) : List (String × β) → Option β
  | [] => none
  | (k', v) :: rest => if k' = k then some v else alookup k rest

/-- Payload lookup specialised to string values. -/
def alookupStr (p : List (String × Value)) (k : String) : Option String :=
  match alookup k p with
  | some (Value.vstr s) => some s
  | _ => none

/-- Payload lookup specialised to numeric values. -/
def alookupNum (p : List (String × Value)) (k : String) : Option Rat :=
  match alookup k p with
  | some (Value.vnum q) => some q
  | _ => none

/-- Last-write-wins update of an association list, keeping key insertion order. -/
def setAssoc {β : Type} (m : List (String × β)) (k : String) (v : β) : List (String × β) :=
  match m with
  | [] => [(k, v)]
  | (k', v') :: rest => if k' = k then (k, v) :: rest else (k', v') :: setAssoc rest k v

/-- Append one `(sequence, value)` observation to a metric key's history,
creating the key at the end of the map if absent. -/
def addMetric (m : List (String × List (Nat × Value))) (k : String) (p : Nat × Value) :
    List (String × List (Nat × Value)) :=
  match m with
  | [] => [(k, [p])]
  | (k', h) :: rest => if k' = k then (k', h ++ [p]) :: rest else (k', h) :: addMetric rest k p

/-- Modelled from the spec: the empty initial state of the projector fold. -/
def initState : ExperimentState :=
  { status := Status.RUNNING
    startTime := none
    endTime := none
    config := []
    metrics := []
    tags := []
    progress := none
    resources := []
    messages := [] }

/-- Modelled from the spec: kind-specific update rule of the State Projector.
START sets status RUNNING and the start time; END sets status COMPLETED and
the end time; ERROR sets status ERROR, the end time, and appends the error
message; CONFIG/RESOURCE overwrite per key; METRIC appends to the key's
history; TAG unions preserving insertion order; PROGRESS replaces the
snapshot; INFO/WARNING append messages; anything else leaves typed fields
unchanged and never raises. -/
def applyEntry (st : ExperimentState) (e : LogEntry) : ExperimentState :=
  match e.kind with
  | Kind.START => { st with status := Status.RUNNING, startTime := some e.timestamp }
  | Kind.END => { st with status := Status.COMPLETED, endTime := some e.timestamp }
  | Kind.ERROR =>
      { st with
        status := Status.ERROR
        endTime := some e.timestamp
        messages := st.messages ++ [⟨e.timestamp, "ERROR", (alookupStr e.payload "message").getD ""⟩] }
  | Kind.INFO =>
      { st with messages := st.messages ++ [⟨e.timestamp, "INFO", (alookupStr e.payload "message").getD ""⟩] }
  | Kind.WARNING =>
      { st with messages := st.messages ++ [⟨e.timestamp, "WARNING", (alookupStr e.payload "message").getD ""⟩] }
  | Kind.PROGRESS =>
      match alookupNum e.payload "current", alookupNum e.payload "total", alookupStr e.payload "message" with
      | some c, some t, some m => { st with progress := some ⟨c, t, m⟩ }
      | _, _, _ => st
  | Kind.METRIC =>
      match alookupStr e.payload "key", alookup "value" e.payload with
      | some k, some v => { st with metrics := addMetric st.metrics k (e.sequence, v) }
      | _, _ => st
  | Kind.CONFIG =>
      match alookupStr e.payload "key", alookup "value" e.payload with
      | some k, some v => { st with config := setAssoc st.config k v }
      | _, _ => st
  | Kind.RESOURCE =>
      match alookupStr e.payload "key", alookup "value" e.payload with
      | some k, some v => { st with resources := setAssoc st.resources k v }
      | _, _ => st
  | Kind.TAG =>
      match alookupStr e.payload "tag" with
      | some t => { st with tags := if t ∈ st.tags then st.tags else st.tags ++ [t] }
      | none => st
  | Kind.ARTIFACT => st

/-- Ordering of entries by their sequence number. -/
def seqLe (a b : LogEntry) : Prop := a.sequence ≤ b.sequence

/-- Strict ordering of entries by their sequence number. -/
def seqLt (a b : LogEntry) : Prop := a.sequence < b.sequence

instance : DecidableRel seqLe := fun a b => inferInstanceAs (Decidable (a.sequence ≤ b.sequence))

instance : IsTotal LogEntry seqLe := ⟨fun a b => Nat.le_total a.sequence b.sequence⟩

instance : IsTrans LogEntry seqLe := ⟨fun _ _ _ h h' => Nat.le_trans h h'⟩

instance : IsAntisymm LogEntry seqLt :=
  ⟨fun _ _ h h' => absurd (Nat.lt_trans h h') (Nat.lt_irrefl _)⟩

/-- Sort a list of entries into ascending sequence order. -/
def sortBySeq (l : List LogEntry) : List LogEntry := List.insertionSort seqLe l

/-- Modelled from the spec: the State Projector — a pure left fold of the
kind-specific update rule over the entries taken in ascending sequence
order, starting from the empty state. -/
def project (entries : List LogEntry) : ExperimentState :=
  (sortBySeq entries).foldl applyEntry initState

theorem sortBySeq_sorted (l : List LogEntry) : List.Sorted seqLe (sortBySeq l) :=
  List.sorted_insertionSort seqLe l

theorem sortBySeq_perm (l : List LogEntry) : List.Perm (sortBySeq l) l :=
  List.perm_insertionSort seqLe l

theorem sortBySeq_eq_of_sorted {l : List LogEntry} (h : List.Sorted seqLe l) :
    sortBySeq l = l :=
  List.Sorted.insertionSort_eq h

theorem pairwise_seqLt_of_nodup_sorted {l : List LogEntry}
    (hs : List.Sorted seqLe l) (hn : (l.map LogEntry.sequence).Nodup) :
    List.Pairwise seqLt l := by
  have hne : List.Pairwise (fun a b : LogEntry => a.sequence ≠ b.sequence) l := by
    rw [List.Nodup, List.pairwise_map] at hn
    exact hn
  have := List.Pairwise.and hs hne
  exact this.imp (fun h => Nat.lt_of_le_of_ne h.1 h.2)

theorem sortBySeq_eq_sortBySeq {l l' : List LogEntry} (hp : List.Perm l' l)
    (hn : (l.map LogEntry.sequence).Nodup) : sortBySeq l' = sortBySeq l := by
  have hp2 : List.Perm (sortBySeq l') (sortBySeq l) :=
    ((sortBySeq_perm l').trans hp).trans (sortBySeq_perm l).symm
  have hn1 : ((sortBySeq l).map LogEntry.sequence).Nodup :=
    ((sortBySeq_perm l).map LogEntry.sequence).nodup_iff.mpr hn
  have hn2 : ((sortBySeq l').map LogEntry.sequence).Nodup :=
    (hp2.map LogEntry.sequence).nodup_iff.mpr hn1
  exact List.eq_of_perm_of_sorted hp2
    (pairwise_seqLt_of_nodup_sorted (sortBySeq_sorted l') hn2)
    (pairwise_seqLt_of_nodup_sorted (sortBySeq_sorted l) hn1)

theorem project_eq_foldl_of_sorted {l : List LogEntry} (h : List.Sorted seqLe l) :
    project l = l.foldl applyEntry initState := by
  rw [project, sortBySeq_eq_of_sorted h]

theorem project_concat_of_sorted {l : List LogEntry} {e : LogEntry}
    (h : List.Sorted seqLe (l ++ [e])) :
    project (l ++ [e]) = applyEntry (project l) e := by
  have hl : List.Sorted seqLe l := h.sublist (List.sublist_append_left l [e])
  rw [project_eq_foldl_of_sorted h, project_eq_foldl_of_sorted hl, List.foldl_append]
  rfl

/-- Modelled from the spec: the error taxonomy of §7. -/
inductive KError where
  | ValidationError (msg : String)
  | SessionClosedError
  | AlreadyOpenError
  | NotFoundError
  | CorruptEntryError
deriving DecidableEq, Repr

/-- Result of running one parsing step of the Entry Codec: a decoded value
together with the unconsumed bytes, a distinguishable `incomplete` signal
for a truncated trailing record, or `corrupt` for a malformed record. -/
inductive PR (α : Type) where
  | ok (a : α) (rest : List Char)
  | incomplete
  | corrupt
deriving Repr

/-- Unary encoding of a natural number, terminated by a colon. -/
def encNat (n : Nat) : List Char := List.replicate n '#' ++ [':']

/-- Parse a unary natural number; end of input inside the run is `incomplete`,
an unexpected character is `corrupt`. -/
def parseNat : List Char → PR Nat
  | [] => PR.incomplete
  | '#' :: cs =>
    match parseNat cs with
    | PR.ok n rest => PR.ok (n + 1) rest
    | PR.incomplete => PR.incomplete
    | PR.corrupt => PR.corrupt
  | ':' :: cs => PR.ok 0 cs
  | _ :: _ => PR.corrupt

/-- Signed encoding of an integer: a sign character then the unary magnitude. -/
def encInt (i : Int) : List Char := (if i < 0 then '-' else '+') :: encNat i.natAbs

/-- Parse a signed integer. -/
def parseInt : List Char → PR Int
  | [] => PR.incomplete
  | '+' :: cs =>
    match parseNat cs with
    | PR.ok n rest => PR.ok (n : Int) rest
    | PR.incomplete => PR.incomplete
    | PR.corrupt => PR.corrupt
  | '-' :: cs =>
    match parseNat cs with
    | PR.ok n rest => PR.ok (-(n : Int)) rest
    | PR.incomplete => PR.incomplete
    | PR.corrupt => PR.corrupt
  | _ :: _ => PR.corrupt

/-- Length-prefixed encoding of a string (self-delimiting, no escaping needed). -/
def encString (s : String) : List Char := encNat s.data.length ++ s.data

/-- Take exactly `n` characters; fewer available means the record is `incomplete`. -/
def takeN (n : Nat) (l : List Char) : PR (List Char) :=
  if n ≤ l.length then PR.ok (l.take n) (l.drop n) else PR.incomplete

/-- Parse a length-prefixed string. -/
def parseString (l : List Char) : PR String :=
  match parseNat l with
  | PR.ok n rest =>
    match takeN n rest with
    | PR.ok cs rest2 => PR.ok (String.mk cs) rest2
    | PR.incomplete => PR.incomplete
    | PR.corrupt => PR.corrupt
  | PR.incomplete => PR.incomplete
  | PR.corrupt => PR.corrupt

/-- Modelled from the spec: encoding of one scalar payload value, tagged by
a leading character. -/
def encValue : Value → List Char
  | Value.vstr s => 's' :: encString s
  | Value.vnum q => 'n' :: (encInt q.num ++ encNat q.den)
  | Value.vbool true => ['t']
  | Value.vbool false => ['f']
  | Value.vnull => ['z']

/-- Parse one scalar payload value. -/
def parseValue : List Char → PR Value
  | [] => PR.incomplete
  | 's' :: cs =>
    match parseString cs with
    | PR.ok s rest => PR.ok (Value.vstr s) rest
    | PR.incomplete => PR.incomplete
    | PR.corrupt => PR.corrupt
  | 'n' :: cs =>
    match parseInt cs with
    | PR.ok num rest =>
      match parseNat rest with
      | PR.ok den rest2 => PR.ok (Value.vnum ((num : Rat) / (den : Rat))) rest2
      | PR.incomplete => PR.incomplete
      | PR.corrupt => PR.corrupt
    | PR.incomplete => PR.incomplete
    | PR.corrupt => PR.corrupt
  | 't' :: cs => PR.ok (Value.vbool true) cs
  | 'f' :: cs => PR.ok (Value.vbool false) cs
  | 'z' :: cs => PR.ok Value.vnull cs
  | _ :: _ => PR.corrupt

/-- One-character tag for each entry kind. -/
def encKind : Kind → List Char
  | Kind.START => ['S']
  | Kind.END => ['E']
  | Kind.PROGRESS => ['P']
  | Kind.METRIC => ['M']
  | Kind.ARTIFACT => ['A']
  | Kind.ERROR => ['X']
  | Kind.INFO => ['I']
  | Kind.WARNING => ['W']
  | Kind.RESOURCE => ['R']
  | Kind.CONFIG => ['C']
  | Kind.TAG => ['T']

/-- Parse an entry kind tag. -/
def parseKind : List Char → PR Kind
  | [] => PR.incomplete
  | 'S' :: cs => PR.ok Kind.START cs
  | 'E' :: cs => PR.ok Kind.END cs
  | 'P' :: cs => PR.ok Kind.PROGRESS cs
  | 'M' :: cs => PR.ok Kind.METRIC cs
  | 'A' :: cs => PR.ok Kind.ARTIFACT cs
  | 'X' :: cs => PR.ok Kind.ERROR cs
  | 'I' :: cs => PR.ok Kind.INFO cs
  | 'W' :: cs => PR.ok Kind.WARNING cs
  | 'R' :: cs => PR.ok Kind.RESOURCE cs
  | 'C' :: cs => PR.ok Kind.CONFIG cs
  | 'T' :: cs => PR.ok Kind.TAG cs
  | _ :: _ => PR.corrupt

/-- Encoding of one payload key/value pair. -/
def encPair (p : String × Value) : List Char := encString p.1 ++ encValue p.2

/-- Encoding of a payload: a unary pair count, then each pair in order. -/
def encPayload (p : List (String × Value)) : List Char :=
  encNat p.length ++ (p.map encPair).flatten

/-- Parse exactly `n` payload key/value pairs. -/
def parsePairs : Nat → List Char → PR (List (String × Value))
  | 0, l => PR.ok [] l
  | n + 1, l =>
    match parseString l with
    | PR.ok k rest =>
      match parseValue rest with
      | PR.ok v rest2 =>
        match parsePairs n rest2 with
        | PR.ok ps rest3 => PR.ok ((k, v) :: ps) rest3
        | PR.incomplete => PR.incomplete
        | PR.corrupt => PR.corrupt
      | PR.incomplete => PR.incomplete
      | PR.corrupt => PR.corrupt
    | PR.incomplete => PR.incomplete
    | PR.corrupt => PR.corrupt

/-- Parse a payload. -/
def parsePayload (l : List Char) : PR (List (String × Value)) :=
  match parseNat l with
  | PR.ok n rest => parsePairs n rest
  | PR.incomplete => PR.incomplete
  | PR.corrupt => PR.corrupt

/-- Modelled from the spec: the Entry Codec's serialisation of one entry's
fields — sequence, timestamp, kind, payload — without the record terminator. -/
def entryBytes (e : LogEntry) : List Char :=
  encNat e.sequence ++ (encNat e.timestamp ++ (encKind e.kind ++ encPayload e.payload))

/-- Modelled from the spec: one durable self-delimiting record — the entry
bytes terminated by a newline. -/
def encodeRecord (e : LogEntry) : List Char := entryBytes e ++ ['\n']

/-- Parse the fields of one entry. -/
def parseEntry (l : List Char) : PR LogEntry :=
  match parseNat l with
  | PR.ok sq rest =>
    match parseNat rest with
    | PR.ok ts rest2 =>
      match parseKind rest2 with
      | PR.ok k rest3 =>
        match parsePayload rest3 with
        | PR.ok p rest4 => PR.ok ⟨sq, ts, k, p⟩ rest4
        | PR.incomplete => PR.incomplete
        | PR.corrupt => PR.corrupt
      | PR.incomplete => PR.incomplete
      | PR.corrupt => PR.corrupt
    | PR.incomplete => PR.incomplete
    | PR.corrupt => PR.corrupt
  | PR.incomplete => PR.incomplete
  | PR.corrupt => PR.corrupt

/-- Modelled from the spec: `decode` of one record — the entry fields
followed by the newline terminator; a record that ends before the
terminator is `incomplete` rather than corrupt. -/
def decodeRecord (l : List Char) : PR LogEntry :=
  match parseEntry l with
  | PR.ok e rest =>
    match rest with
    | [] => PR.incomplete
    | '\n' :: cs => PR.ok e cs
    | _ :: _ => PR.corrupt
  | PR.incomplete => PR.incomplete
  | PR.corrupt => PR.corrupt

/-- Decode successive complete records from the file bytes, stopping
silently at a trailing incomplete record and surfacing corruption; the
fuel argument bounds the recursion and is always sufficient when set to
the byte count plus one. -/
def readRecordsFuel : Nat → List Char → Except KError (List LogEntry)
  | 0, _ => Except.ok []
  | fuel + 1, l =>
    match decodeRecord l with
    | PR.ok e rest =>
      match readRecordsFuel fuel rest with
      | Except.ok es => Except.ok (e :: es)
      | Except.error er => Except.error er
    | PR.incomplete => Except.ok []
    | PR.corrupt => Except.error KError.CorruptEntryError

/-- Modelled from the spec: `read_all` — open the experiment's log bytes
read-only, decode every complete record in order, silently stop at a
trailing incomplete record, and surface `CorruptEntryError` on a
complete-looking record that fails to decode. -/
def read_all (file : List Char) : Except KError (List LogEntry) :=
  readRecordsFuel (file.length + 1) file

/-- Modelled from the spec: `read_since` — the entries of `read_all` whose
sequence number exceeds the given offset, in order. -/
def read_since (file : List Char) (offset : Nat) : Except KError (List LogEntry) :=
  match read_all file with
  | Except.ok es => Except.ok (es.filter (fun e => decide (offset < e.sequence)))
  | Except.error er => Except.error er

/-- The byte contents of a log holding the given entries. -/
def encodeAll (es : List LogEntry) : List Char := (es.map encodeRecord).flatten

theorem encodeAll_nil : encodeAll [] = [] := rfl

theorem encodeAll_cons (e : LogEntry) (es : List LogEntry) :
    encodeAll (e :: es) = encodeRecord e ++ encodeAll es := by
  simp [encodeAll]

theorem encodeAll_append (a b : List LogEntry) :
    encodeAll (a ++ b) = encodeAll a ++ encodeAll b := by
  simp [encodeAll]

theorem encNat_succ (n : Nat) : encNat (n + 1) = '#' :: encNat n := by
  simp [encNat, List.replicate_succ]

theorem parseNat_enc (n : Nat) (rest : List Char) :
    parseNat (encNat n ++ rest) = PR.ok n rest := by
  induction n with
  | zero => rfl
  | succ m ih => rw [encNat_succ, List.cons_append, parseNat, ih]

theorem parseInt_enc (i : Int) (rest : List Char) :
    parseInt (encInt i ++ rest) = PR.ok i rest := by
  rw [encInt]
  by_cases h : i < 0
  · rw [if_pos h]
    simp only [List.cons_append, parseInt, parseNat_enc]
    have hv : -(i.natAbs : Int) = i := by omega
    rw [hv]
  · rw [if_neg h]
    simp only [List.cons_append, parseInt, parseNat_enc]
    have hv : (i.natAbs : Int) = i := by omega
    rw [hv]

theorem parseString_enc (s : String) (rest : List Char) :
    parseString (encString s ++ rest) = PR.ok s rest := by
  simp only [encString, List.append_assoc, parseString, parseNat_enc, takeN]
  rw [if_pos (by simp)]
  rw [List.take_left, List.drop_left]

theorem parseValue_enc (v : Value) (rest : List Char) :
    parseValue (encValue v ++ rest) = PR.ok v rest := by
  cases v with
  | vstr s => simp only [encValue, List.cons_append, parseValue, parseString_enc]
  | vnum q =>
    simp only [encValue, List.cons_append, List.append_assoc, parseValue, parseInt_enc,
      parseNat_enc, Rat.num_div_den]
  | vbool b => cases b <;> rfl
  | vnull => rfl

theorem parseKind_enc (k : Kind) (rest : List Char) :
    parseKind (encKind k ++ rest) = PR.ok k rest := by
  cases k <;> rfl

theorem parsePairs_enc (p : List (String × Value)) (rest : List Char) :
    parsePairs p.length ((p.map encPair).flatten ++ rest) = PR.ok p rest := by
  induction p generalizing rest with
  | nil => simp [parsePairs]
  | cons hd tl ih =>
    obtain ⟨k, v⟩ := hd
    simp only [List.length_cons, List.map_cons, List.flatten_cons, encPair, List.append_assoc,
      parsePairs, parseString_enc, parseValue_enc, ih]

theorem parsePayload_enc (p : List (String × Value)) (rest : List Char) :
    parsePayload (encPayload p ++ rest) = PR.ok p rest := by
  simp only [encPayload, List.append_assoc, parsePayload, parseNat_enc, parsePairs_enc]

theorem parseEntry_enc (e : LogEntry) (rest : List Char) :
    parseEntry (entryBytes e ++ rest) = PR.ok e rest := by
  obtain ⟨sq, ts, k, p⟩ := e
  simp only [entryBytes, List.append_assoc, parseEntry, parseNat_enc, parseKind_enc,
    parsePayload_enc]

theorem decodeRecord_enc (e : LogEntry) (rest : List Char) :
    decodeRecord (encodeRecord e ++ rest) = PR.ok e rest := by
  rw [encodeRecord, List.append_assoc, List.singleton_append]
  simp only [decodeRecord, parseEntry_enc]

theorem decodeRecord_entryBytes (e : LogEntry) : decodeRecord (entryBytes e) = PR.incomplete := by
  have h := parseEntry_enc e []
  rw [List.append_nil] at h
  rw [decodeRecord, h]

theorem decodeRecord_nil : decodeRecord [] = PR.incomplete := rfl

theorem encodeRecord_length_pos (e : LogEntry) : 0 < (encodeRecord e).length := by
  simp [encodeRecord]

theorem readRecordsFuel_spec (es : List LogEntry) :
    ∀ (fuel : Nat) (suffix : List Char), (encodeAll es).length ≤ fuel →
      decodeRecord suffix = PR.incomplete →
      readRecordsFuel fuel (encodeAll es ++ suffix) = Except.ok es := by
  induction es with
  | nil =>
    intro fuel suffix _ hsuf
    cases fuel with
    | zero => rfl
    | succ f =>
      rw [encodeAll_nil, List.nil_append, readRecordsFuel, hsuf]
  | cons e tl ih =>
    intro fuel suffix hlen hsuf
    rw [encodeAll_cons] at hlen ⊢
    have hpos := encodeRecord_length_pos e
    rw [List.length_append] at hlen
    cases fuel with
    | zero => omega
    | succ f =>
      rw [List.append_assoc]
      simp only [readRecordsFuel, decodeRecord_enc, ih f suffix (by omega) hsuf]

theorem read_all_encodeAll (es : List LogEntry) :
    read_all (encodeAll es) = Except.ok es := by
  have h := readRecordsFuel_spec es ((encodeAll es).length + 1) [] (by omega) decodeRecord_nil
  rw [List.append_nil] at h
  exact h

theorem encodeAll_dropLast (es : List LogEntry) (h : es ≠ []) :
    (encodeAll es).dropLast = encodeAll es.dropLast ++ entryBytes (es.getLast h) := by
  conv_lhs => rw [← List.dropLast_concat_getLast h]
  rw [encodeAll_append, encodeAll_cons, encodeAll_nil, List.append_nil, encodeRecord,
    ← List.append_assoc, List.dropLast_concat]

/-- Modelled from the spec: the writer-side Experiment Session — a state
machine bound to one experiment, holding the generated `id`, the entry log
it has appended through the Log Store, the next sequence number it will
assign, a monotone clock for timestamps, and the OPEN/CLOSED flag. -/
structure Session where
  id : String
  log : List LogEntry
  nextSeq : Nat
  clock : Nat
  isOpen : Bool
deriving DecidableEq, Repr

/-- Whether a kind is a terminal entry kind (END or ERROR). -/
def isTerm (k : Kind) : Bool :=
  match k with
  | Kind.END => true
  | Kind.ERROR => true
  | _ => false

/-- Whether a kind is START. -/
def isStart (k : Kind) : Bool :=
  match k with
  | Kind.START => true
  | _ => false

/-- Modelled from the spec: the Session's internal append — assigns the
next monotonic sequence number and timestamp, delegates the entry to the
Log Store, and advances both counters. -/
def Session.append (s : Session) (k : Kind) (p : List (String × Value)) : Session :=
  { s with
    log := s.log ++ [⟨s.nextSeq, s.clock, k, p⟩]
    nextSeq := s.nextSeq + 1
    clock := s.clock + 1 }

/-- Modelled from the spec: `log_info` — on an OPEN session appends exactly
one INFO entry; on a CLOSED session fails with `SessionClosedError` and
appends nothing. -/
def Session.log_info (s : Session) (m : String) : Session × Option KError :=
  if s.isOpen then (s.append Kind.INFO [("message", Value.vstr m)], none)
  else (s, some KError.SessionClosedError)

/-- Modelled from the spec: `log_warning`. -/
def Session.log_warning (s : Session) (m : String) : Session × Option KError :=
  if s.isOpen then (s.append Kind.WARNING [("message", Value.vstr m)], none)
  else (s, some KError.SessionClosedError)

/-- Modelled from the spec: `update_progress` — validates
`0 ≤ current ≤ total`, rejecting otherwise with a `ValidationError` that
appends nothing and leaves the session as it was; on success appends
exactly one PROGRESS entry. -/
def Session.update_progress (s : Session) (current total : Int) (m : String) :
    Session × Option KError :=
  if s.isOpen then
    if 0 ≤ current ∧ current ≤ total then
      (s.append Kind.PROGRESS
        [("current", Value.vnum (current : Rat)), ("total", Value.vnum (total : Rat)),
         ("message", Value.vstr m)], none)
    else (s, some (KError.ValidationError "update_progress requires 0 <= current <= total"))
  else (s, some KError.SessionClosedError)

/-- Modelled from the spec: `set_metric` — appends one METRIC entry. -/
def Session.set_metric (s : Session) (k : String) (v : Rat) : Session × Option KError :=
  if s.isOpen then
    (s.append Kind.METRIC [("key", Value.vstr k), ("value", Value.vnum v)], none)
  else (s, some KError.SessionClosedError)

/-- Modelled from the spec: `set_config` — appends one CONFIG entry. -/
def Session.set_config (s : Session) (k : String) (v : Value) : Session × Option KError :=
  if s.isOpen then
    (s.append Kind.CONFIG [("key", Value.vstr k), ("value", v)], none)
  else (s, some KError.SessionClosedError)

/-- Modelled from the spec: `log_resource` — appends one RESOURCE entry. -/
def Session.log_resource (s : Session) (k : String) (v : Value) : Session × Option KError :=
  if s.isOpen then
    (s.append Kind.RESOURCE [("key", Value.vstr k), ("value", v)], none)
  else (s, some KError.SessionClosedError)

/-- Modelled from the spec: `add_tag` — appends one TAG entry. -/
def Session.add_tag (s : Session) (t : String) : Session × Option KError :=
  if s.isOpen then
    (s.append Kind.TAG [("tag", Value.vstr t)], none)
  else (s, some KError.SessionClosedError)

/-- Modelled from the spec: normal close — on an OPEN session appends the
END terminal entry and transitions to CLOSED; on a CLOSED session it is a
no-op (idempotent teardown). -/
def Session.close (s : Session) : Session :=
  if s.isOpen then
    { s.append Kind.END [("status", Value.vstr "completed")] with isOpen := false }
  else s

/-- Modelled from the spec: error-path close — on an OPEN session appends
an ERROR terminal entry capturing the exception's type and message and
transitions to CLOSED; on a CLOSED session it is a no-op. -/
def Session.closeError (s : Session) (ty msg : String) : Session :=
  if s.isOpen then
    { s.append Kind.ERROR [("type", Value.vstr ty), ("message", Value.vstr msg)] with
      isOpen := false }
  else s

/-- Modelled from the spec: opening a Session for `experiment(name, config,
tags)` — generates the id from the name and creation time, appends START
(with the name and codec version), then records the initial config as
CONFIG entries and the initial tags as TAG entries. -/
def openExperiment (name : String) (config : List (String × Value)) (tags : List String)
    (now : Nat) : Session :=
  let s0 : Session :=
    { id := name ++ "_" ++ toString now, log := [], nextSeq := 0, clock := now, isOpen := true }
  let s1 := s0.append Kind.START [("name", Value.vstr name), ("version", Value.vnum 1)]
  let s2 := config.foldl
    (fun s kv => s.append Kind.CONFIG [("key", Value.vstr kv.1), ("value", kv.2)]) s1
  tags.foldl (fun s t => s.append Kind.TAG [("tag", Value.vstr t)]) s2

/-- An exception raised by caller code inside an experiment scope:
its type name and message. -/
structure Exn where
  ty : String
  msg : String
deriving DecidableEq, Repr

/-- Exception view of a surfaced session error. -/
def exnOfError : KError → Exn
  | KError.ValidationError m => ⟨"ValidationError", m⟩
  | KError.SessionClosedError => ⟨"SessionClosedError", ""⟩
  | KError.AlreadyOpenError => ⟨"AlreadyOpenError", ""⟩
  | KError.NotFoundError => ⟨"NotFoundError", ""⟩
  | KError.CorruptEntryError => ⟨"CorruptEntryError", ""⟩

/-- One step of caller code inside the experiment scope: a logging call on
the session, or an unhandled exception raised by the caller's own logic. -/
inductive Cmd where
  | logInfo (m : String)
  | logWarning (m : String)
  | updateProgress (current total : Int) (m : String)
  | setMetric (k : String) (v : Rat)
  | setConfig (k : String) (v : Value)
  | logResource (k : String) (v : Value)
  | addTag (t : String)
  | raiseExn (ty m : String)
deriving DecidableEq, Repr

/-- Run one caller step: a logging call whose surfaced error (if any)
propagates as an exception, or a directly raised exception. -/
def runCmd (s : Session) : Cmd → Session × Option Exn
  | Cmd.logInfo m => let r := s.log_info m; (r.1, r.2.map exnOfError)
  | Cmd.logWarning m => let r := s.log_warning m; (r.1, r.2.map exnOfError)
  | Cmd.updateProgress c t m => let r := s.update_progress c t m; (r.1, r.2.map exnOfError)
  | Cmd.setMetric k v => let r := s.set_metric k v; (r.1, r.2.map exnOfError)
  | Cmd.setConfig k v => let r := s.set_config k v; (r.1, r.2.map exnOfError)
  | Cmd.logResource k v => let r := s.log_resource k v; (r.1, r.2.map exnOfError)
  | Cmd.addTag t => let r := s.add_tag t; (r.1, r.2.map exnOfError)
  | Cmd.raiseExn ty m => (s, some ⟨ty, m⟩)

/-- Run caller code inside the scope until it finishes or an unhandled
exception escapes, returning the session state at that point. -/
def runCmds (s : Session) : List Cmd → Session × Option Exn
  | [] => (s, none)
  | c :: cs =>
    match runCmd s c with
    | (s2, none) => runCmds s2 cs
    | (s2, some e) => (s2, some e)

/-- Modelled from the spec: the scoped-acquisition (context-manager)
lifecycle — open the session, run the caller's code, and on every exit
path reach a terminal entry: END on normal exit, or an ERROR entry
capturing the exception's type and message appended before the exception
propagates outward (the propagated exception is the second component). -/
def withExperiment (name : String) (config : List (String × Value)) (tags : List String)
    (now : Nat) (body : List Cmd) : Session × Option Exn :=
  let r := runCmds (openExperiment name config tags now) body
  match r.2 with
  | none => (r.1.close, none)
  | some e => (r.1.closeError e.ty e.msg, some e)

/-- Well-formedness invariant of every session the model can reach: the
log's sequence numbers are exactly `0, 1, …, length − 1`, the next
sequence counter agrees with the log length, the log starts with its
unique START entry, and terminal entries are absent while OPEN and unique
and final once CLOSED. -/
def SWF (s : Session) : Prop :=
  s.log.map LogEntry.sequence = List.range s.log.length
  ∧ s.nextSeq = s.log.length
  ∧ s.log.countP (fun e => isStart e.kind) = 1
  ∧ s.log.head?.map (fun e => e.kind) = some Kind.START
  ∧ (s.isOpen = true → s.log.countP (fun e => isTerm e.kind) = 0)
  ∧ (s.isOpen = false →
      s.log.countP (fun e => isTerm e.kind) = 1
      ∧ s.log.getLast?.map (fun e => isTerm e.kind) = some true)

theorem isStart_END : isStart Kind.END = false := rfl

theorem isStart_ERROR : isStart Kind.ERROR = false := rfl

theorem isTerm_END : isTerm Kind.END = true := rfl

theorem isTerm_ERROR : isTerm Kind.ERROR = true := rfl

theorem SWF_log_ne_nil {s : Session} (h : SWF s) : s.log ≠ [] := by
  intro hnil
  have hc := h.2.2.1
  rw [hnil, List.countP_nil] at hc
  exact absurd hc (by decide)

theorem head?_map_append_of_ne_nil {l : List LogEntry} (l2 : List LogEntry) (h : l ≠ []) :
    (l ++ l2).head?.map (fun e => e.kind) = l.head?.map (fun e => e.kind) := by
  obtain ⟨a, t, rfl⟩ := List.exists_cons_of_ne_nil h
  rfl

theorem SWF_append {s : Session} {k : Kind} {p : List (String × Value)} (h : SWF s)
    (ho : s.isOpen = true) (hk1 : isStart k = false) (hk2 : isTerm k = false) :
    SWF (s.append k p) := by
  obtain ⟨hseq, hnext, hstart, hhead, hterm, -⟩ := h
  have hne : s.log ≠ [] := by
    intro hnil
    rw [hnil, List.countP_nil] at hstart
    exact absurd hstart (by decide)
  refine ⟨?_, ?_, ?_, ?_, ?_, ?_⟩
  · simp only [Session.append, List.map_append, List.length_append, hseq, hnext,
      List.map_cons, List.map_nil, List.length_cons, List.length_nil]
    rw [← List.range_succ]
  · simp [Session.append, hnext]
  · simp [Session.append, List.countP_append, hstart, List.countP_singleton, hk1]
  · simp only [Session.append]
    rw [head?_map_append_of_ne_nil _ hne, hhead]
  · intro _
    simp [Session.append, List.countP_append, hterm ho, List.countP_singleton, hk2]
  · intro hcl
    simp [Session.append] at hcl
    rw [hcl] at ho
    cases ho

theorem append_isOpen (s : Session) (k : Kind) (p : List (String × Value)) :
    (s.append k p).isOpen = s.isOpen := rfl

theorem append_id (s : Session) (k : Kind) (p : List (String × Value)) :
    (s.append k p).id = s.id := rfl

theorem foldl_pres {β : Type} (f : Session → β → Session)
    (hf : ∀ s b, SWF s → s.isOpen = true →
      SWF (f s b) ∧ (f s b).isOpen = true ∧ (f s b).id = s.id) :
    ∀ (l : List β) (s : Session), SWF s → s.isOpen = true →
      SWF (List.foldl f s l) ∧ (List.foldl f s l).isOpen = true
        ∧ (List.foldl f s l).id = s.id := by
  intro l
  induction l with
  | nil => intro s h ho; exact ⟨h, ho, rfl⟩
  | cons b t ih =>
    intro s h ho
    obtain ⟨h1, h2, h3⟩ := hf s b h ho
    obtain ⟨g1, g2, g3⟩ := ih (f s b) h1 h2
    exact ⟨g1, g2, by rw [List.foldl_cons] at *; rw [g3, h3]⟩

theorem openExperiment_SWF (name : String) (config : List (String × Value))
    (tags : List String) (now : Nat) :
    SWF (openExperiment name config tags now)
      ∧ (openExperiment name config tags now).isOpen = true
      ∧ (openExperiment name config tags now).id = name ++ "_" ++ toString now := by
  have base : SWF
      (Session.append
        { id := name ++ "_" ++ toString now, log := [], nextSeq := 0, clock := now,
          isOpen := true }
        Kind.START [("name", Value.vstr name), ("version", Value.vnum 1)]) := by
    refine ⟨rfl, rfl, rfl, rfl, fun _ => rfl, fun hcl => by cases hcl⟩
  have hcfg := foldl_pres
    (fun s kv => s.append Kind.CONFIG [("key", Value.vstr kv.1), ("value", kv.2)])
    (fun s kv h ho => ⟨SWF_append h ho rfl rfl, ho, rfl⟩) config _ base rfl
  have htag := foldl_pres
    (fun s t => s.append Kind.TAG [("tag", Value.vstr t)])
    (fun s t h ho => ⟨SWF_append h ho rfl rfl, ho, rfl⟩) tags _ hcfg.1 hcfg.2.1
  refine ⟨htag.1, htag.2.1, ?_⟩
  rw [openExperiment]
  rw [htag.2.2, hcfg.2.2]
  rfl

theorem runCmd_pres (s : Session) (c : Cmd) (h : SWF s) (ho : s.isOpen = true) :
    SWF (runCmd s c).1 ∧ (runCmd s c).1.isOpen = true ∧ (runCmd s c).1.id = s.id := by
  cases c with
  | logInfo m =>
    simp only [runCmd, Session.log_info, ho, if_true]
    exact ⟨SWF_append h ho rfl rfl, ho, rfl⟩
  | logWarning m =>
    simp only [runCmd, Session.log_warning, ho, if_true]
    exact ⟨SWF_append h ho rfl rfl, ho, rfl⟩
  | updateProgress c t m =>
    simp only [runCmd, Session.update_progress, ho, if_true]
    by_cases hv : 0 ≤ c ∧ c ≤ t
    · rw [if_pos hv]
      exact ⟨SWF_append h ho rfl rfl, ho, rfl⟩
    · rw [if_neg hv]
      exact ⟨h, ho, rfl⟩
  | setMetric k v =>
    simp only [runCmd, Session.set_metric, ho, if_true]
    exact ⟨SWF_append h ho rfl rfl, ho, rfl⟩
  | setConfig k v =>
    simp only [runCmd, Session.set_config, ho, if_true]
    exact ⟨SWF_append h ho rfl rfl, ho, rfl⟩
  | logResource k v =>
    simp only [runCmd, Session.log_resource, ho, if_true]
    exact ⟨SWF_append h ho rfl rfl, ho, rfl⟩
  | addTag t =>
    simp only [runCmd, Session.add_tag, ho, if_true]
    exact ⟨SWF_append h ho rfl rfl, ho, rfl⟩
  | raiseExn ty m => exact ⟨h, ho, rfl⟩

theorem runCmds_pres (body : List Cmd) :
    ∀ (s : Session), SWF s → s.isOpen = true →
      SWF (runCmds s body).1 ∧ (runCmds s body).1.isOpen = true
        ∧ (runCmds s body).1.id = s.id := by
  induction body with
  | nil => intro s h ho; exact ⟨h, ho, rfl⟩
  | cons c t ih =>
    intro s h ho
    obtain ⟨h1, h2, h3⟩ := runCmd_pres s c h ho
    rw [runCmds]
    cases hr : runCmd s c with
    | mk s2 e =>
      rw [hr] at h1 h2 h3
      cases e with
      | none =>
        obtain ⟨g1, g2, g3⟩ := ih s2 h1 h2
        exact ⟨g1, g2, by rw [g3, h3]⟩
      | some ex => exact ⟨h1, h2, h3⟩

theorem close_SWF {s : Session} (h : SWF s) (ho : s.isOpen = true) :
    SWF s.close ∧ s.close.isOpen = false ∧ s.close.id = s.id := by
  obtain ⟨hseq, hnext, hstart, hhead, hterm, -⟩ := h
  have hne : s.log ≠ [] := by
    intro hnil
    rw [hnil, List.countP_nil] at hstart
    exact absurd hstart (by decide)
  rw [Session.close, if_pos ho]
  refine ⟨⟨?_, ?_, ?_, ?_, ?_, ?_⟩, rfl, rfl⟩
  · simp only [Session.append, List.map_append, List.length_append, hseq, hnext,
      List.map_cons, List.map_nil, List.length_cons, List.length_nil]
    rw [← List.range_succ]
  · simp [Session.append, hnext]
  · simp [Session.append, List.countP_append, hstart, List.countP_singleton, isStart_END]
  · simp only [Session.append]
    rw [head?_map_append_of_ne_nil _ hne, hhead]
  · intro hop; cases hop
  · intro _
    constructor
    · simp only [Session.append, List.countP_append, List.countP_singleton]
      rw [hterm ho]
      rfl
    · simp [Session.append, List.getLast?_concat, isTerm_END]

theorem closeError_SWF {s : Session} (ty msg : String) (h : SWF s) (ho : s.isOpen = true) :
    SWF (s.closeError ty msg) ∧ (s.closeError ty msg).isOpen = false
      ∧ (s.closeError ty msg).id = s.id := by
  obtain ⟨hseq, hnext, hstart, hhead, hterm, -⟩ := h
  have hne : s.log ≠ [] := by
    intro hnil
    rw [hnil, List.countP_nil] at hstart
    exact absurd hstart (by decide)
  rw [Session.closeError, if_pos ho]
  refine ⟨⟨?_, ?_, ?_, ?_, ?_, ?_⟩, rfl, rfl⟩
  · simp only [Session.append, List.map_append, List.length_append, hseq, hnext,
      List.map_cons, List.map_nil, List.length_cons, List.length_nil]
    rw [← List.range_succ]
  · simp [Session.append, hnext]
  · simp [Session.append, List.countP_append, hstart, List.countP_singleton, isStart_ERROR]
  · simp only [Session.append]
    rw [head?_map_append_of_ne_nil _ hne, hhead]
  · intro hop; cases hop
  · intro _
    constructor
    · simp only [Session.append, List.countP_append, List.countP_singleton]
      rw [hterm ho]
      rfl
    · simp [Session.append, List.getLast?_concat, isTerm_ERROR]

instance : DecidableRel seqLt := fun a b => inferInstanceAs (Decidable (a.sequence < b.sequence))

instance (s : Session) : Decidable (SWF s) := by
  unfold SWF
  infer_instance

theorem sorted_of_seq_range {l : List LogEntry}
    (h : l.map LogEntry.sequence = List.range l.length) : List.Sorted seqLe l := by
  have hp : (l.map LogEntry.sequence).Pairwise (· < ·) := by
    rw [h]; exact List.pairwise_lt_range _
  rw [List.pairwise_map] at hp
  exact hp.imp (fun hlt => Nat.le_of_lt hlt)

theorem seq_range_concat {l : List LogEntry} {e : LogEntry}
    (h : l.map LogEntry.sequence = List.range l.length) (he : e.sequence = l.length) :
    (l ++ [e]).map LogEntry.sequence = List.range (l ++ [e]).length := by
  simp only [List.map_append, List.length_append, h, he, List.map_cons, List.map_nil,
    List.length_cons, List.length_nil]
  rw [← List.range_succ]

theorem project_session_concat {s : Session} (h : SWF s) (k : Kind)
    (p : List (String × Value)) :
    project ((s.append k p).log)
      = applyEntry (project s.log) ⟨s.nextSeq, s.clock, k, p⟩ := by
  have hm : ((s.log ++ [(⟨s.nextSeq, s.clock, k, p⟩ : LogEntry)]).map LogEntry.sequence)
      = List.range (s.log ++ [(⟨s.nextSeq, s.clock, k, p⟩ : LogEntry)]).length :=
    seq_range_concat h.1 h.2.1
  exact project_concat_of_sorted (sorted_of_seq_range hm)

theorem alookup_key_kv (k : String) (v : Value) :
    alookup "key" [("key", Value.vstr k), ("value", v)] = some (Value.vstr k) := by
  rw [alookup, if_pos rfl]

theorem alookup_value_kv (k : String) (v : Value) :
    alookup "value" [("key", Value.vstr k), ("value", v)] = some v := by
  rw [alookup, if_neg (by decide), alookup, if_pos rfl]

theorem alookupStr_key_kv (k : String) (v : Value) :
    alookupStr [("key", Value.vstr k), ("value", v)] "key" = some k := by
  rw [alookupStr, alookup_key_kv]

theorem alookup_message_tm (ty msg : String) :
    alookup "message" [("type", Value.vstr ty), ("message", Value.vstr msg)]
      = some (Value.vstr msg) := by
  rw [alookup, if_neg (by decide), alookup, if_pos rfl]

theorem alookupStr_message_tm (ty msg : String) :
    alookupStr [("type", Value.vstr ty), ("message", Value.vstr msg)] "message" = some msg := by
  rw [alookupStr, alookup_message_tm]

theorem applyEntry_error_entry (st : ExperimentState) (sq ts : Nat) (ty msg : String) :
    applyEntry st ⟨sq, ts, Kind.ERROR, [("type", Value.vstr ty), ("message", Value.vstr msg)]⟩
      = { st with
          status := Status.ERROR
          endTime := some ts
          messages := st.messages ++ [⟨ts, "ERROR", msg⟩] } := by
  simp only [applyEntry, alookupStr_message_tm, Option.getD_some]

theorem applyEntry_metric_entry (st : ExperimentState) (sq ts : Nat) (k : String) (v : Rat) :
    applyEntry st ⟨sq, ts, Kind.METRIC, [("key", Value.vstr k), ("value", Value.vnum v)]⟩
      = { st with metrics := addMetric st.metrics k (sq, Value.vnum v) } := by
  simp only [applyEntry, alookupStr_key_kv, alookup_value_kv]

theorem alookup_addMetric (m : List (String × List (Nat × Value))) (k : String)
    (p : Nat × Value) :
    alookup k (addMetric m k p) = some ((alookup k m).getD [] ++ [p]) := by
  induction m with
  | nil => simp [addMetric, alookup]
  | cons hd t ih =>
    obtain ⟨k2, h2⟩ := hd
    by_cases he : k2 = k
    · subst he
      simp [addMetric, alookup]
    · simp [addMetric, alookup, he, ih]

theorem closeError_project {s : Session} (h : SWF s) (ho : s.isOpen = true) (ty msg : String) :
    project ((s.closeError ty msg).log)
      = applyEntry (project s.log)
          ⟨s.nextSeq, s.clock, Kind.ERROR,
           [("type", Value.vstr ty), ("message", Value.vstr msg)]⟩ := by
  rw [Session.closeError, if_pos ho]
  exact project_session_concat h Kind.ERROR _

/-- The session state reached inside the scope after running the caller's
steps (the state at the raise point when an exception escapes). -/
def scopeRun (name : String) (config : List (String × Value)) (tags : List String)
    (now : Nat) (body : List Cmd) : Session :=
  (runCmds (openExperiment name config tags now) body).1

/-- The recorded history of one metric key in a projected state. -/
def metricHist (st : ExperimentState) (k : String) : List (Nat × Value) :=
  (alookup k st.metrics).getD []

/-- The latest value of one metric key in a projected state. -/
def latestMetric (st : ExperimentState) (k : String) : Option Value :=
  (metricHist st k).getLast?.map Prod.snd

theorem withExperiment_SWF (name : String) (config : List (String × Value))
    (tags : List String) (now : Nat) (body : List Cmd) :
    SWF ((withExperiment name config tags now body).1)
      ∧ ((withExperiment name config tags now body).1).isOpen = false
      ∧ ((withExperiment name config tags now body).1).id = name ++ "_" ++ toString now := by
  obtain ⟨h0, ho0, hid0⟩ := openExperiment_SWF name config tags now
  obtain ⟨h1, ho1, hid1⟩ := runCmds_pres body _ h0 ho0
  simp only [withExperiment]
  cases hr : (runCmds (openExperiment name config tags now) body).2 with
  | none =>
    obtain ⟨a, b, c⟩ := close_SWF h1 ho1
    exact ⟨a, b, by rw [c, hid1, hid0]⟩
  | some e =>
    obtain ⟨a, b, c⟩ := closeError_SWF e.ty e.msg h1 ho1
    exact ⟨a, b, by rw [c, hid1, hid0]⟩

theorem SWF_head_start_zero {s : Session} (h : SWF s) :
    s.log.head?.map (fun e => (e.kind, e.sequence)) = some (Kind.START, 0) := by
  obtain ⟨a, t, hl⟩ := List.exists_cons_of_ne_nil (SWF_log_ne_nil h)
  have hseq := h.1
  have hhead := h.2.2.2.1
  rw [hl] at hseq hhead ⊢
  simp only [List.head?_cons, Option.map_some'] at hhead ⊢
  rw [List.length_cons, List.range_succ_eq_map, List.map_cons] at hseq
  have hs0 : a.sequence = 0 := (List.cons.injEq _ _ _ _).mp hseq |>.1
  rw [Option.some.injEq] at hhead
  rw [hs0, hhead]

theorem filter_le_append_filter_gt (o : Nat) {es : List LogEntry}
    (h : List.Pairwise seqLt es) :
    es.filter (fun e => decide (e.sequence ≤ o))
      ++ es.filter (fun e => decide (o < e.sequence)) = es := by
  induction es with
  | nil => rfl
  | cons a t ih =>
    rw [List.pairwise_cons] at h
    by_cases ha : a.sequence ≤ o
    · rw [List.filter_cons_of_pos (by simpa using ha),
        List.filter_cons_of_neg (by simpa using Nat.not_lt.mpr ha),
        List.cons_append, ih h.2]
    · have ho : o < a.sequence := Nat.lt_of_not_le ha
      rw [List.filter_cons_of_neg (by simpa using ha),
        List.filter_cons_of_pos (by simpa using ho)]
      have h1 : t.filter (fun e => decide (e.sequence ≤ o)) = [] := by
        rw [List.filter_eq_nil_iff]
        intro e he
        have := h.1 e he
        simp only [decide_eq_true_eq]
        unfold seqLt at this
        omega
      have h2 : t.filter (fun e => decide (o < e.sequence)) = t := by
        rw [List.filter_eq_self]
        intro e he
        have := h.1 e he
        simp only [decide_eq_true_eq]
        unfold seqLt at this
        omega
      rw [h1, h2, List.nil_append]

/-- C1 (counterexample): the claim as stated fails on entry sequences with
duplicated sequence numbers — two CONFIG entries both at sequence 0 can be
permuted, and re-sorting the permutation by sequence does not restore the
original tie order, so the projections differ. -/
theorem C1_counterexample :
    List.Perm
      [(⟨0, 1, Kind.CONFIG, [("key", Value.vstr "k"), ("value", Value.vnum 2)]⟩ : LogEntry),
       ⟨0, 0, Kind.CONFIG, [("key", Value.vstr "k"), ("value", Value.vnum 1)]⟩]
      [(⟨0, 0, Kind.CONFIG, [("key", Value.vstr "k"), ("value", Value.vnum 1)]⟩ : LogEntry),
       ⟨0, 1, Kind.CONFIG, [("key", Value.vstr "k"), ("value", Value.vnum 2)]⟩]
    ∧ project
        (sortBySeq
          [(⟨0, 1, Kind.CONFIG, [("key", Value.vstr "k"), ("value", Value.vnum 2)]⟩ : LogEntry),
           ⟨0, 0, Kind.CONFIG, [("key", Value.vstr "k"), ("value", Value.vnum 1)]⟩])
      ≠ project
        [(⟨0, 0, Kind.CONFIG, [("key", Value.vstr "k"), ("value", Value.vnum 1)]⟩ : LogEntry),
         ⟨0, 1, Kind.CONFIG, [("key", Value.vstr "k"), ("value", Value.vnum 2)]⟩] := by
  constructor
  · exact List.Perm.swap _ _ []
  · decide

/-- C1 (amended): for every sequence of entries whose sequence numbers are
pairwise distinct, the State Projector is deterministic — `project E`
equals itself on a second run — and order-insensitive up to sequence
numbers: `project` of any permutation of `E` re-sorted into ascending
sequence order equals `project E`. -/
theorem C1_determinism (E E2 : List LogEntry) (hperm : List.Perm E2 E)
    (hnodup : (E.map LogEntry.sequence).Nodup) :
    project E = project E ∧ project (sortBySeq E2) = project E := by
  refine ⟨rfl, ?_⟩
  have h1 : sortBySeq E2 = sortBySeq E := sortBySeq_eq_sortBySeq hperm hnodup
  rw [project, sortBySeq_eq_of_sorted (sortBySeq_sorted E2), h1]
  rfl

/-- Witness for C1: a two-entry log with distinct sequence numbers,
permuted and re-sorted. -/
theorem C1_witness :
    project
        [(⟨0, 0, Kind.CONFIG, [("key", Value.vstr "k"), ("value", Value.vnum 1)]⟩ : LogEntry),
         ⟨1, 1, Kind.METRIC, [("key", Value.vstr "m"), ("value", Value.vnum 2)]⟩]
      = project
        [(⟨0, 0, Kind.CONFIG, [("key", Value.vstr "k"), ("value", Value.vnum 1)]⟩ : LogEntry),
         ⟨1, 1, Kind.METRIC, [("key", Value.vstr "m"), ("value", Value.vnum 2)]⟩]
    ∧ project
        (sortBySeq
          [(⟨1, 1, Kind.METRIC, [("key", Value.vstr "m"), ("value", Value.vnum 2)]⟩ : LogEntry),
           ⟨0, 0, Kind.CONFIG, [("key", Value.vstr "k"), ("value", Value.vnum 1)]⟩])
      = project
        [(⟨0, 0, Kind.CONFIG, [("key", Value.vstr "k"), ("value", Value.vnum 1)]⟩ : LogEntry),
         ⟨1, 1, Kind.METRIC, [("key", Value.vstr "m"), ("value", Value.vnum 2)]⟩] :=
  C1_determinism _ _ (List.Perm.swap _ _ []) (by decide)

/-- C2: whenever caller code inside the scope raises an unhandled
exception, the scoped lifecycle appends an ERROR terminal entry capturing
the exception's type and message before re-propagating the exception, and
the projection of the resulting log has status ERROR, retains every other
field of the state projected from the entries appended before the raise
(config, metrics, tags, progress, resources), and includes the error in
the messages list. -/
theorem C2_exception_becomes_error_terminal (name : String)
    (config : List (String × Value)) (tags : List String) (now : Nat) (body : List Cmd)
    (ex : Exn) (h : (runCmds (openExperiment name config tags now) body).2 = some ex) :
    withExperiment name config tags now body
        = ((scopeRun name config tags now body).closeError ex.ty ex.msg, some ex)
    ∧ ((scopeRun name config tags now body).closeError ex.ty ex.msg).log
        = (scopeRun name config tags now body).log
          ++ [⟨(scopeRun name config tags now body).nextSeq,
               (scopeRun name config tags now body).clock, Kind.ERROR,
               [("type", Value.vstr ex.ty), ("message", Value.vstr ex.msg)]⟩]
    ∧ project (((scopeRun name config tags now body).closeError ex.ty ex.msg).log)
        = { project ((scopeRun name config tags now body).log) with
            status := Status.ERROR
            endTime := some (scopeRun name config tags now body).clock
            messages := (project ((scopeRun name config tags now body).log)).messages
              ++ [⟨(scopeRun name config tags now body).clock, "ERROR", ex.msg⟩] }
    ∧ (⟨(scopeRun name config tags now body).clock, "ERROR", ex.msg⟩ : Message)
        ∈ (project (((scopeRun name config tags now body).closeError ex.ty ex.msg).log)).messages := by
  obtain ⟨h0, ho0, -⟩ := openExperiment_SWF name config tags now
  obtain ⟨h1, ho1, -⟩ := runCmds_pres body _ h0 ho0
  simp only [scopeRun]
  have hstate : project
      ((((runCmds (openExperiment name config tags now) body).1).closeError ex.ty ex.msg).log)
      = { project (((runCmds (openExperiment name config tags now) body).1).log) with
          status := Status.ERROR
          endTime := some ((runCmds (openExperiment name config tags now) body).1).clock
          messages :=
            (project (((runCmds (openExperiment name config tags now) body).1).log)).messages
              ++ [⟨((runCmds (openExperiment name config tags now) body).1).clock, "ERROR",
                   ex.msg⟩] } := by
    rw [closeError_project h1 ho1 ex.ty ex.msg, applyEntry_error_entry]
  refine ⟨?_, ?_, hstate, ?_⟩
  · simp only [withExperiment]
    rw [h]
  · rw [Session.closeError, if_pos ho1]
    rfl
  · rw [hstate]
    exact List.mem_append_right _ (List.mem_singleton_self _)

/-- Witness for C2: a scope that logs the metric acc = 1/10 and then
raises ValueError "boom". -/
theorem C2_witness :
    withExperiment "b" [] [] 0 [Cmd.setMetric "acc" (1/10), Cmd.raiseExn "ValueError" "boom"]
        = ((scopeRun "b" [] [] 0
              [Cmd.setMetric "acc" (1/10), Cmd.raiseExn "ValueError" "boom"]).closeError
            "ValueError" "boom", some ⟨"ValueError", "boom"⟩)
    ∧ ((scopeRun "b" [] [] 0
          [Cmd.setMetric "acc" (1/10), Cmd.raiseExn "ValueError" "boom"]).closeError
        "ValueError" "boom").log
        = (scopeRun "b" [] [] 0
            [Cmd.setMetric "acc" (1/10), Cmd.raiseExn "ValueError" "boom"]).log
          ++ [⟨(scopeRun "b" [] [] 0
                  [Cmd.setMetric "acc" (1/10), Cmd.raiseExn "ValueError" "boom"]).nextSeq,
               (scopeRun "b" [] [] 0
                  [Cmd.setMetric "acc" (1/10), Cmd.raiseExn "ValueError" "boom"]).clock,
               Kind.ERROR,
               [("type", Value.vstr "ValueError"), ("message", Value.vstr "boom")]⟩]
    ∧ project (((scopeRun "b" [] [] 0
          [Cmd.setMetric "acc" (1/10), Cmd.raiseExn "ValueError" "boom"]).closeError
            "ValueError" "boom").log)
        = { project ((scopeRun "b" [] [] 0
              [Cmd.setMetric "acc" (1/10), Cmd.raiseExn "ValueError" "boom"]).log) with
            status := Status.ERROR
            endTime := some (scopeRun "b" [] [] 0
              [Cmd.setMetric "acc" (1/10), Cmd.raiseExn "ValueError" "boom"]).clock
            messages := (project ((scopeRun "b" [] [] 0
                [Cmd.setMetric "acc" (1/10), Cmd.raiseExn "ValueError" "boom"]).log)).messages
              ++ [⟨(scopeRun "b" [] [] 0
                     [Cmd.setMetric "acc" (1/10), Cmd.raiseExn "ValueError" "boom"]).clock,
                   "ERROR", "boom"⟩] }
    ∧ (⟨(scopeRun "b" [] [] 0
           [Cmd.setMetric "acc" (1/10), Cmd.raiseExn "ValueError" "boom"]).clock,
        "ERROR", "boom"⟩ : Message)
        ∈ (project (((scopeRun "b" [] [] 0
              [Cmd.setMetric "acc" (1/10), Cmd.raiseExn "ValueError" "boom"]).closeError
                "ValueError" "boom").log)).messages :=
  C2_exception_becomes_error_terminal "b" [] [] 0
    [Cmd.setMetric "acc" (1/10), Cmd.raiseExn "ValueError" "boom"]
    ⟨"ValueError", "boom"⟩ (by decide)

/-- C3: every session reachable inside or after the scoped lifecycle
carries a log whose sequence numbers are exactly `0, 1, 2, …` in order —
strictly increasing with no gaps and no repeats; sequence numbers are
assigned by the Session's own counter and the caller-facing operations
accept none. -/
theorem C3_monotonic_sequencing (name : String) (config : List (String × Value))
    (tags : List String) (now : Nat) (body : List Cmd) :
    (scopeRun name config tags now body).log.map LogEntry.sequence
        = List.range (scopeRun name config tags now body).log.length
    ∧ ((withExperiment name config tags now body).1).log.map LogEntry.sequence
        = List.range ((withExperiment name config tags now body).1).log.length := by
  obtain ⟨h0, ho0, -⟩ := openExperiment_SWF name config tags now
  exact ⟨(runCmds_pres body _ h0 ho0).1.1, (withExperiment_SWF name config tags now body).1.1⟩

/-- C4: every completed log has exactly one START entry, located at the
head with sequence 0, and exactly one terminal entry (END or ERROR) which
is the last entry; while the session is still open the log has its unique
START and no terminal entry; and closing an already-closed session is a
no-op, leaving the single terminal entry in place. -/
theorem C4_start_terminal_unique (name : String) (config : List (String × Value))
    (tags : List String) (now : Nat) (body : List Cmd) :
    ((withExperiment name config tags now body).1).log.countP (fun e => isStart e.kind) = 1
    ∧ ((withExperiment name config tags now body).1).log.head?.map
        (fun e => (e.kind, e.sequence)) = some (Kind.START, 0)
    ∧ ((withExperiment name config tags now body).1).log.countP (fun e => isTerm e.kind) = 1
    ∧ ((withExperiment name config tags now body).1).log.getLast?.map
        (fun e => isTerm e.kind) = some true
    ∧ ((withExperiment name config tags now body).1).close
        = (withExperiment name config tags now body).1
    ∧ (scopeRun name config tags now body).log.countP (fun e => isStart e.kind) = 1
    ∧ (scopeRun name config tags now body).log.countP (fun e => isTerm e.kind) = 0 := by
  obtain ⟨hW, hWo, -⟩ := withExperiment_SWF name config tags now body
  obtain ⟨h0, ho0, -⟩ := openExperiment_SWF name config tags now
  obtain ⟨h1, ho1, -⟩ := runCmds_pres body _ h0 ho0
  obtain ⟨hterm1, hterm2⟩ := hW.2.2.2.2.2 hWo
  refine ⟨hW.2.2.1, SWF_head_start_zero hW, hterm1, hterm2, ?_, h1.2.2.1,
    h1.2.2.2.2.1 ho1⟩
  simp [Session.close, hWo]

/-- C5: crash tolerance of the Log Store — for every nonempty list of
entries, truncating the final record's bytes by one byte makes `read_all`
return exactly the earlier entries, in order, with no error: the
incomplete trailing record is treated as not yet visible. -/
theorem C5_crash_tolerance (es : List LogEntry) (h : 1 ≤ es.length) :
    read_all ((encodeAll es).dropLast) = Except.ok es.dropLast := by
  have hne : es ≠ [] := List.length_pos.mp h
  rw [encodeAll_dropLast es hne, read_all]
  refine readRecordsFuel_spec es.dropLast _ _ ?_ (decodeRecord_entryBytes _)
  rw [List.length_append]
  omega

/-- Witness for C5: two entries appended, final record truncated by one
byte; read_all recovers exactly the first entry. -/
theorem C5_witness :
    read_all ((encodeAll
        [(⟨0, 0, Kind.START, [("name", Value.vstr "a")]⟩ : LogEntry),
         ⟨1, 1, Kind.END, []⟩]).dropLast)
      = Except.ok [⟨0, 0, Kind.START, [("name", Value.vstr "a")]⟩] :=
  C5_crash_tolerance
    [⟨0, 0, Kind.START, [("name", Value.vstr "a")]⟩, ⟨1, 1, Kind.END, []⟩] (by decide)

/-- C6: for every log whose entries are in strictly ascending sequence
order, `read_since` returns, still in ascending order, exactly the entries
of `read_all` whose sequence exceeds the offset, and projecting the
previously read prefix (the entries with sequence at most the offset)
extended by the entries `read_since` returns equals a single full replay
of the whole log. -/
theorem C6_read_since_tail (es : List LogEntry) (o : Nat)
    (hs : List.Pairwise seqLt es) :
    read_since (encodeAll es) o
        = Except.ok (es.filter (fun e => decide (o < e.sequence)))
    ∧ List.Pairwise seqLt (es.filter (fun e => decide (o < e.sequence)))
    ∧ project (es.filter (fun e => decide (e.sequence ≤ o))
        ++ es.filter (fun e => decide (o < e.sequence))) = project es := by
  refine ⟨?_, ?_, ?_⟩
  · rw [read_since, read_all_encodeAll]
  · exact List.Pairwise.sublist (List.filter_sublist es) hs
  · rw [filter_le_append_filter_gt o hs]

/-- Witness for C6: a two-entry log tailed from offset 0. -/
theorem C6_witness :
    read_since (encodeAll
        [(⟨0, 0, Kind.START, [("name", Value.vstr "a")]⟩ : LogEntry),
         ⟨1, 1, Kind.INFO, [("message", Value.vstr "hi")]⟩]) 0
        = Except.ok
          ([(⟨0, 0, Kind.START, [("name", Value.vstr "a")]⟩ : LogEntry),
            ⟨1, 1, Kind.INFO, [("message", Value.vstr "hi")]⟩].filter
            (fun e => decide (0 < e.sequence)))
    ∧ List.Pairwise seqLt
        ([(⟨0, 0, Kind.START, [("name", Value.vstr "a")]⟩ : LogEntry),
          ⟨1, 1, Kind.INFO, [("message", Value.vstr "hi")]⟩].filter
          (fun e => decide (0 < e.sequence)))
    ∧ project
        ([(⟨0, 0, Kind.START, [("name", Value.vstr "a")]⟩ : LogEntry),
          ⟨1, 1, Kind.INFO, [("message", Value.vstr "hi")]⟩].filter
            (fun e => decide (e.sequence ≤ 0))
          ++ [(⟨0, 0, Kind.START, [("name", Value.vstr "a")]⟩ : LogEntry),
              ⟨1, 1, Kind.INFO, [("message", Value.vstr "hi")]⟩].filter
            (fun e => decide (0 < e.sequence)))
      = project
          [(⟨0, 0, Kind.START, [("name", Value.vstr "a")]⟩ : LogEntry),
           ⟨1, 1, Kind.INFO, [("message", Value.vstr "hi")]⟩] :=
  C6_read_since_tail
    [⟨0, 0, Kind.START, [("name", Value.vstr "a")]⟩,
     ⟨1, 1, Kind.INFO, [("message", Value.vstr "hi")]⟩] 0 (by decide)

/-- C7 (Scenario A): opening a session named s1, setting config lr = 0.01,
updating progress to 1 of 10 with message go, setting metric acc = 0.5 and
closing normally projects to status COMPLETED, config containing exactly
lr = 0.01, progress (1, 10, go), and latest metric acc = 0.5. -/
theorem C7_scenario_a :
    (project (((withExperiment "s1" [] [] 0
        [Cmd.setConfig "lr" (Value.vnum (1/100)), Cmd.updateProgress 1 10 "go",
         Cmd.setMetric "acc" (1/2)]).1).log)).status = Status.COMPLETED
    ∧ (project (((withExperiment "s1" [] [] 0
        [Cmd.setConfig "lr" (Value.vnum (1/100)), Cmd.updateProgress 1 10 "go",
         Cmd.setMetric "acc" (1/2)]).1).log)).config = [("lr", Value.vnum (1/100))]
    ∧ (project (((withExperiment "s1" [] [] 0
        [Cmd.setConfig "lr" (Value.vnum (1/100)), Cmd.updateProgress 1 10 "go",
         Cmd.setMetric "acc" (1/2)]).1).log)).progress = some ⟨1, 10, "go"⟩
    ∧ latestMetric (project (((withExperiment "s1" [] [] 0
        [Cmd.setConfig "lr" (Value.vnum (1/100)), Cmd.updateProgress 1 10 "go",
         Cmd.setMetric "acc" (1/2)]).1).log)) "acc" = some (Value.vnum (1/2)) := by
  refine ⟨rfl, rfl, ?_, rfl⟩
  show some (⟨((1 : Int) : Rat), ((10 : Int) : Rat), "go"⟩ : Progress) = _
  norm_num

/-- C8: on an open session, `update_progress` with arguments violating
`0 ≤ current ≤ total` is rejected with a ValidationError, appends nothing,
leaves the log and its projection exactly as before, and leaves the
session OPEN so that subsequent logging calls still succeed. -/
theorem C8_update_progress_rejected (s : Session) (c t : Int) (m : String)
    (ho : s.isOpen = true) (hbad : ¬(0 ≤ c ∧ c ≤ t)) :
    s.update_progress c t m
        = (s, some (KError.ValidationError "update_progress requires 0 <= current <= total"))
    ∧ (s.update_progress c t m).1.log = s.log
    ∧ project ((s.update_progress c t m).1.log) = project s.log
    ∧ (s.update_progress c t m).1.isOpen = true
    ∧ ∀ (k : String) (v : Rat), ((s.update_progress c t m).1.set_metric k v).2 = none := by
  have h1 : s.update_progress c t m
      = (s, some (KError.ValidationError
          "update_progress requires 0 <= current <= total")) := by
    rw [Session.update_progress, if_pos ho, if_neg hbad]
  refine ⟨h1, by rw [h1], by rw [h1], by rw [h1]; exact ho, ?_⟩
  intro k v
  rw [h1]
  simp [Session.set_metric, ho]

/-- Witness for C8: update_progress with current = 11, total = 10 on a
freshly opened session. -/
theorem C8_witness :
    (openExperiment "d" [] [] 0).update_progress 11 10 "x"
        = (openExperiment "d" [] [] 0,
           some (KError.ValidationError "update_progress requires 0 <= current <= total"))
    ∧ ((openExperiment "d" [] [] 0).update_progress 11 10 "x").1.log
        = (openExperiment "d" [] [] 0).log
    ∧ project (((openExperiment "d" [] [] 0).update_progress 11 10 "x").1.log)
        = project ((openExperiment "d" [] [] 0).log)
    ∧ ((openExperiment "d" [] [] 0).update_progress 11 10 "x").1.isOpen = true
    ∧ (((openExperiment "d" [] [] 0).update_progress 11 10 "x").1.set_metric
        "acc" (1/2)).2 = none := by
  have h := C8_update_progress_rejected (openExperiment "d" [] [] 0) 11 10 "x"
    (by decide) (by decide)
  exact ⟨h.1, h.2.1, h.2.2.1, h.2.2.2.1, h.2.2.2.2 "acc" (1/2)⟩

/-- C9: setting a metric on an open well-formed session appends one
observation to that key's ordered history in the projected state — the
full history is retained — and the latest value of the key becomes the
value just written. -/
theorem C9_metric_history (s : Session) (k : String) (v : Rat)
    (h : SWF s) (ho : s.isOpen = true) :
    (s.set_metric k v).2 = none
    ∧ metricHist (project ((s.set_metric k v).1.log)) k
        = metricHist (project s.log) k ++ [(s.nextSeq, Value.vnum v)]
    ∧ latestMetric (project ((s.set_metric k v).1.log)) k = some (Value.vnum v) := by
  have hs1 : (s.set_metric k v).1
      = s.append Kind.METRIC [("key", Value.vstr k), ("value", Value.vnum v)] := by
    rw [Session.set_metric, if_pos ho]
  have hs2 : (s.set_metric k v).2 = none := by
    rw [Session.set_metric, if_pos ho]
  have hproj : project
      ((s.append Kind.METRIC [("key", Value.vstr k), ("value", Value.vnum v)]).log)
      = { project s.log with
          metrics := addMetric (project s.log).metrics k (s.nextSeq, Value.vnum v) } := by
    rw [project_session_concat h, applyEntry_metric_entry]
  have hhist : metricHist
      { project s.log with
        metrics := addMetric (project s.log).metrics k (s.nextSeq, Value.vnum v) } k
      = metricHist (project s.log) k ++ [(s.nextSeq, Value.vnum v)] := by
    rw [metricHist, metricHist]
    rw [show ({ project s.log with
        metrics := addMetric (project s.log).metrics k
          (s.nextSeq, Value.vnum v) } : ExperimentState).metrics
      = addMetric (project s.log).metrics k (s.nextSeq, Value.vnum v) from rfl]
    rw [alookup_addMetric]
    rfl
  refine ⟨hs2, ?_, ?_⟩
  · rw [hs1, hproj, hhist]
  · rw [hs1, hproj, latestMetric, hhist, List.getLast?_concat]
    rfl

/-- Witness for C9 (Scenario C): metric acc set to 1/10 then 1/5 — the
history is extended to length 2 and the latest value is 1/5. -/
theorem C9_witness :
    ((((openExperiment "c" [] [] 0).set_metric "acc" (1/10)).1).set_metric "acc" (1/5)).2
        = none
    ∧ metricHist (project ((((((openExperiment "c" [] [] 0).set_metric "acc"
          (1/10)).1).set_metric "acc" (1/5)).1).log)) "acc"
        = metricHist (project ((((openExperiment "c" [] [] 0).set_metric "acc"
            (1/10)).1).log)) "acc"
          ++ [((((openExperiment "c" [] [] 0).set_metric "acc" (1/10)).1).nextSeq,
               Value.vnum (1/5))]
    ∧ latestMetric (project ((((((openExperiment "c" [] [] 0).set_metric "acc"
          (1/10)).1).set_metric "acc" (1/5)).1).log)) "acc" = some (Value.vnum (1/5))
    ∧ (metricHist (project ((((((openExperiment "c" [] [] 0).set_metric "acc"
          (1/10)).1).set_metric "acc" (1/5)).1).log)) "acc").length = 2 := by
  have h := C9_metric_history (((openExperiment "c" [] [] 0).set_metric "acc" (1/10)).1)
    "acc" (1/5) (by decide) (by decide)
  exact ⟨h.1, h.2.1, h.2.2, by decide⟩

/-- C10: the session object returned for an experiment exposes the
generated identifier as `id`, and that identifier is unchanged by every
logging call, progress update, metric write, raised exception and by
closing — inside the scope and after it. -/
theorem C10_stable_session_id (name : String) (config : List (String × Value))
    (tags : List String) (now : Nat) (body : List Cmd) :
    (openExperiment name config tags now).id = name ++ "_" ++ toString now
    ∧ (scopeRun name config tags now body).id = (openExperiment name config tags now).id
    ∧ ((withExperiment name config tags now body).1).id
        = (openExperiment name config tags now).id := by
  obtain ⟨h0, ho0, hid0⟩ := openExperiment_SWF name config tags now
  obtain ⟨-, -, hid1⟩ := runCmds_pres body _ h0 ho0
  obtain ⟨-, -, hidW⟩ := withExperiment_SWF name config tags now body
  exact ⟨hid0, hid1, by rw [hidW, hid0]⟩

end Kepler
